import Mathlib

/-!
Verification of the InLocker backup engine (`src-tauri`) against its
natural-language specification.  The Rust modules are shallowly embedded:
machine integers become `Nat` (or `Int` where the source uses `i64`/`i32`)
with explicit truncation (`% 256`, `% 2 ^ 32`) where the source truncates,
fallible functions return `Except String`, and external library primitives
(Argon2, AES-GCM, SHA-256, zstd, the tar container format, the OS
filesystem) appear as explicit parameters or symbolic models at the library
call boundary.  Everything below that boundary is translated line by line
from the Rust source.
-/

namespace InLocker

/-!
Section: `crypto.rs`, `mod base64` — the hand-rolled base64 codec
(`src/src-tauri/src/crypto.rs` lines 311-368).  Rust `String`s of ASCII
characters are modelled as `List Char`; bytes (`u8`) as `Nat` values that
are `< 256` wherever they originate from a real `Vec<u8>`.
-/

namespace B64

/-- The base64 alphabet string used by both `encode` and `decode`. -/
def alphabet : List Char :=
  "ABCDEFGHIJKLMNOPQRSTUVWXYZabcdefghijklmnopqrstuvwxyz0123456789+/".toList

/-- Body of the `for chunk in data.chunks(3)` loop of `encode`
(crypto.rs:315-337): `b2`/`b3` default to `0` via `unwrap_or(0)`, the
24-bit group `n` is assembled with shifts and ors, and two to four
alphabet characters (with `=` padding) are emitted. -/
def encodeChunk (chunk : List Nat) : List Char :=
  let b1 := chunk.getD 0 0
  let b2 := chunk.getD 1 0
  let b3 := chunk.getD 2 0
  let n : Nat := ((b1 <<< 16) ||| (b2 <<< 8)) ||| b3
  [alphabet.getD ((n >>> 18) &&& 63) 'A', alphabet.getD ((n >>> 12) &&& 63) 'A']
    ++ (if chunk.length > 1 then [alphabet.getD ((n >>> 6) &&& 63) 'A'] else ['='])
    ++ (if chunk.length > 2 then [alphabet.getD (n &&& 63) 'A'] else ['='])

/-- `base64::encode` (crypto.rs:312-339): the input is processed in chunks
of three bytes; `data.chunks(3)` yields a final chunk of length one or two
when the input length is not a multiple of three. -/
def encode : List Nat → List Char
  | [] => []
  | b1 :: b2 :: b3 :: rest => encodeChunk [b1, b2, b3] ++ encode rest
  | chunk => encodeChunk chunk

/-- The accumulation loop of `decode` (crypto.rs:349-356): iterate the
characters of one four-character chunk with index `i`, stop at `=`, look
the character up in the alphabet (`str::find`), and or the six-bit value
into `n` at position `18 - i * 6`. -/
def quantumVal : List Char → Nat → Nat → Except String Nat
  | [], _, n => .ok n
  | c :: cs, i, n =>
    if c = '=' then .ok n
    else
      match alphabet.findIdx? (· == c) with
      | none => .error "Invalid base64 character"
      | some val => quantumVal cs (i + 1) (n ||| (val <<< (18 - i * 6)))

/-- The byte-emission tail of the `decode` chunk loop (crypto.rs:358-364):
`(n >> 16) as u8` is always pushed, the further bytes only when the chunk
has more than two resp. three characters.  The `as u8` casts truncate,
hence the explicit `% 256`. -/
def decodeChunkBytes (chunk : List Char) (n : Nat) : List Nat :=
  [(n >>> 16) % 256]
    ++ (if chunk.length > 2 then [(n >>> 8) % 256] else [])
    ++ (if chunk.length > 3 then [n % 256] else [])

/-- The chunk loop of `decode` (crypto.rs:346-365): the trimmed input is
split into chunks of four characters (`as_bytes().chunks(4)`; all
characters in play are ASCII, so byte chunks coincide with character
chunks) and each chunk contributes one to three bytes. -/
def decodeChunks : List Char → Except String (List Nat)
  | [] => .ok []
  | c0 :: c1 :: c2 :: c3 :: rest => do
    let n ← quantumVal [c0, c1, c2, c3] 0 0
    let bs ← decodeChunks rest
    .ok (decodeChunkBytes [c0, c1, c2, c3] n ++ bs)
  | chunk => do
    let n ← quantumVal chunk 0 0
    .ok (decodeChunkBytes chunk n)

/-- Rust `s.trim_end_matches('=')`: remove every trailing `=`. -/
def trimEndEq (s : List Char) : List Char :=
  (s.reverse.dropWhile (· == '=')).reverse

/-- `base64::decode` (crypto.rs:341-368). -/
def decode (s : List Char) : Except String (List Nat) :=
  decodeChunks (trimEndEq s)

end B64


/-!
Section: `crypto.rs` — key derivation and AES-256-GCM seal/open
(`src/src-tauri/src/crypto.rs` lines 14-211).  The external `argon2` and
`ring` crates are modelled symbolically at the call boundary: a derived
key is represented by the pair of inputs that determine it (an injective
random-oracle reading of Argon2id), and a sealed AEAD box by the key,
nonce and plaintext that produced it, with `open` succeeding exactly when
key and nonce match (the ideal-cipher reading of AEAD authenticity).
Everything above that boundary — metadata construction, base64 transport
of salt and nonce, error routing — is translated from the source.
-/

namespace Crypto

/-- `EncryptionMetadata` (crypto.rs:20-34).  `salt` and `nonce` are the
base64-encoded strings stored alongside the ciphertext; strings are
modelled as `List Char`. -/
structure EncryptionMetadata where
  salt : List Char
  nonce : List Char
  version : Nat
  memory_cost : Nat
  iterations : Nat
  parallelism : Nat
deriving Repr, DecidableEq

/-- Symbolic model of the Argon2id output (crypto.rs:74-97): the derived
key is a function of password and salt only (the m/t/p parameters are the
fixed constants of `derive_key`), and distinct inputs give distinct keys. -/
structure DerivedKey where
  password : List Char
  salt : List Nat
deriving Repr, DecidableEq

/-- `derive_key` (crypto.rs:74-97) at the symbolic KDF boundary. -/
def derive_key (password : List Char) (salt : List Nat) : DerivedKey :=
  ⟨password, salt⟩

/-- Symbolic model of a `ring` AES-256-GCM ciphertext with its appended
authentication tag (crypto.rs:141-147). -/
structure SealedBox where
  key : DerivedKey
  nonce : List Nat
  plaintext : List Nat
deriving Repr, DecidableEq

/-- `seal_in_place_append_tag` at the symbolic AEAD boundary. -/
def seal_in_place_append_tag (key : DerivedKey) (nonce : List Nat)
    (pt : List Nat) : SealedBox :=
  ⟨key, nonce, pt⟩

/-- `open_in_place` at the symbolic AEAD boundary: authentication
succeeds exactly for the key and nonce that sealed the box. -/
def open_in_place (key : DerivedKey) (nonce : List Nat)
    (box : SealedBox) : Option (List Nat) :=
  if box.key = key ∧ box.nonce = nonce then some box.plaintext else none

/-- The single error message produced when `open_in_place` fails
(crypto.rs:203-205); it does not depend on the cause of the failure. -/
def authFailMsg : String := "Decryption failed - wrong password or corrupted data"

/-- `encrypt` (crypto.rs:121-160).  The salt and nonce are drawn from
`OsRng` in the source; the model takes them as explicit parameters. -/
def encrypt (plaintext : List Nat) (password : List Char)
    (salt nonce_bytes : List Nat) :
    Except String (SealedBox × EncryptionMetadata) :=
  let key := derive_key password salt
  let ciphertext := seal_in_place_append_tag key nonce_bytes plaintext
  .ok (ciphertext,
    { salt := B64.encode salt
      nonce := B64.encode nonce_bytes
      version := 0x13
      memory_cost := 65536
      iterations := 3
      parallelism := 4 })

/-- `decrypt` (crypto.rs:171-211): base64-decode salt and nonce from the
metadata, re-derive the key, and open the box; every authentication
failure is collapsed onto the one `authFailMsg` message. -/
def decrypt (ciphertext : SealedBox) (password : List Char)
    (metadata : EncryptionMetadata) : Except String (List Nat) :=
  match B64.decode metadata.salt with
  | .error e => .error ("Invalid salt: " ++ e)
  | .ok salt =>
    match B64.decode metadata.nonce with
    | .error e => .error ("Invalid nonce: " ++ e)
    | .ok nonce_bytes =>
      let key := derive_key password salt
      match open_in_place key nonce_bytes ciphertext with
      | some pt => .ok pt
      | none => .error authFailMsg

end Crypto

/-!
Section: `backup.rs` — manifest types, change detection, artifact naming,
the encrypted-frame layout, the archive-mode commit pipeline, tar
extraction and restore (`src/src-tauri/src/backup.rs`).  The filesystem,
SHA-256, zstd and the tar container format are external boundaries and
appear as parameters; control flow, cleanup, framing and path handling
are translated from the source.
-/

namespace Backup

/-- `types.rs` `FileMetadata` (types.rs:131-136): one manifest entry. -/
structure FileMetadata where
  path : String
  size : Nat
  modified_at : Int
  checksum : String
deriving Repr, DecidableEq

/-- `types.rs` `BackupManifest` (types.rs:123-127); the `HashMap` is
modelled as an association list queried with `List.lookup`. -/
structure BackupManifest where
  config_id : String
  created_at : Int
  files : List (String × FileMetadata)
deriving Repr, DecidableEq

/-- The `fallback:<size>:<mtime>` placeholder recorded by `build_manifest`
when hashing a file fails (backup.rs:787-792). -/
def fallbackChecksum (size : Nat) (modified_at : Int) : String :=
  "fallback:" ++ toString size ++ ":" ++ toString modified_at

/-- One regular file seen by the walk, with the metadata the engine reads
from it: its path relative to the source root (the result of
`strip_prefix` at backup.rs:580-584), `fs::metadata` size and mtime, and
whether `fs::metadata` succeeds for it. -/
structure SrcFile where
  relative_path : String
  size : Nat
  modified_at : Int
  metaReadable : Bool
deriving Repr, DecidableEq

/-- The per-file decision of `scan_changed_files` (backup.rs:578-608):
with no prior manifest or no prior entry the file is included; with a
prior entry it is included exactly when mtime or size differ (and the
second metadata read succeeds); no other field of the prior entry is
consulted. -/
def shouldBackup (previous_manifest : Option BackupManifest) (f : SrcFile) : Bool :=
  match previous_manifest with
  | none => true
  | some manifest =>
    match manifest.files.lookup f.relative_path with
    | none => true
    | some prev =>
      if f.metaReadable then
        decide (f.modified_at ≠ prev.modified_at) || decide (f.size ≠ prev.size)
      else false

/-- `scan_changed_files` (backup.rs:567-619): fold over the walk result,
keeping the files `shouldBackup` selects; the push at backup.rs:610-615
re-reads metadata and silently skips the file when that read fails. -/
def scan_changed_files (all_files : List SrcFile)
    (previous_manifest : Option BackupManifest) : List SrcFile × Nat :=
  all_files.foldl
    (fun acc f =>
      if shouldBackup previous_manifest f then
        if f.metaReadable then (acc.1 ++ [f], acc.2 + f.size) else acc
      else acc)
    ([], 0)

/-- The three backup modes (types.rs `BackupMode`). -/
inductive BackupMode where
  | copy
  | compressed
  | encrypted
deriving Repr, DecidableEq

/-- `actual_backup_type` (backup.rs:120-126): recomputed from the
observed counts, not taken from the requested `backup_type`. -/
def actual_backup_type (files_count total_files_count : Nat) : String :=
  if files_count = total_files_count then "full" else "incr"

/-- `backup_filename` (backup.rs:128-142): the `Bkp_InLocker_` branded
name with the per-mode suffix. -/
def backup_filename (mode : BackupMode) (actualType timestamp : String) : String :=
  match mode with
  | .copy => "Bkp_InLocker_" ++ actualType ++ "_" ++ timestamp
  | .compressed => "Bkp_InLocker_" ++ actualType ++ "_" ++ timestamp ++ ".tar.zst"
  | .encrypted => "Bkp_InLocker_" ++ actualType ++ "_" ++ timestamp ++ ".tar.zst.enc"

/-- Stated from the specification for comparison (spec §3 "Artifact",
§4.8 step 5): the name the spec ascribes to an artifact,
`Bkp_<actual_type>_<timestamp>` plus the per-mode suffix.  This is the
one definition in this development written from the spec's words rather
than from the source, so that claim C8 can compare the two. -/
def spec_backup_filename (mode : BackupMode) (actualType timestamp : String) : String :=
  match mode with
  | .copy => "Bkp_" ++ actualType ++ "_" ++ timestamp
  | .compressed => "Bkp_" ++ actualType ++ "_" ++ timestamp ++ ".tar.zst"
  | .encrypted => "Bkp_" ++ actualType ++ "_" ++ timestamp ++ ".tar.zst.enc"

/-- `u32::to_le_bytes (len as u32)` (backup.rs:337-339): the `as u32`
cast truncates modulo `2 ^ 32`, then four little-endian bytes. -/
def u32ToLeBytes (n : Nat) : List Nat :=
  [n % 2 ^ 32 % 256, n % 2 ^ 32 / 256 % 256,
   n % 2 ^ 32 / 65536 % 256, n % 2 ^ 32 / 16777216 % 256]

/-- `u32::from_le_bytes` (backup.rs:978-983) on four file bytes. -/
def u32FromLeBytes (b0 b1 b2 b3 : Nat) : Nat :=
  b0 + 256 * b1 + 65536 * b2 + 16777216 * b3

/-- The encrypted-artifact frame written by `compress_folder`
(backup.rs:333-349): `[4-byte LE length][metadata JSON][encrypted data]`. -/
def buildFrame (metadata_json encrypted : List Nat) : List Nat :=
  u32ToLeBytes metadata_json.length ++ metadata_json ++ encrypted

/-- The frame parse performed by `restore_backup` (backup.rs:974-993):
reject a file shorter than 4 bytes, read the little-endian length, reject
a file shorter than `4 + L`, and split off the metadata JSON bytes and
the remaining ciphertext. -/
def parseFrame (file_data : List Nat) : Except String (List Nat × List Nat) :=
  if file_data.length < 4 then .error "Invalid encrypted file: too short"
  else
    let metadata_len := u32FromLeBytes (file_data.getD 0 0) (file_data.getD 1 0)
      (file_data.getD 2 0) (file_data.getD 3 0)
    if file_data.length < 4 + metadata_len then
      .error "Invalid encrypted file: metadata truncated"
    else .ok ((file_data.drop 4).take metadata_len, file_data.drop (4 + metadata_len))

/-!
The archive-mode commit pipeline of `compress_folder` (backup.rs:221-377)
for the Compressed and Encrypted modes, as a straight-line state machine:
each external operation's outcome is a field of `ArchiveEnv`, and the
on-disk footprint tracked is whether a file exists at the planned final
artifact path and at the `.tmp.zst` sidecar path (`DiskState`).
-/

/-- Outcomes of the external steps of the archive pipeline, in source
order.  `cancelAfterCompress` is the value the shared cancel flag is
observed to have at the `check_cancelled()?` of backup.rs:318, between
streaming compression and encryption. -/
structure ArchiveEnv where
  createDestDirOk : Bool
  passwordProvided : Bool
  createFileOk : Bool
  streamResult : Except String Nat
  cancelAfterCompress : Bool
  readTempOk : Bool
  encryptOk : Bool
  serializeOk : Bool
  writeFinalOk : Bool
  encSize : Nat
  checksumResult : Except String String
deriving Repr

/-- Which of the two pipeline files remain on disk when the call
returns. -/
structure DiskState where
  finalExists : Bool
  tempExists : Bool
deriving Repr, DecidableEq

/-- `compress_folder`, Compressed and Encrypted branches
(backup.rs:221-377).  Compressed: create the final file, stream
tar+zstd into it, unlink it on any failure (backup.rs:266-271), then
checksum, unlinking on checksum failure (backup.rs:370-377).  Encrypted:
create the `.tmp.zst` sidecar, stream into it, unlink it on stream
failure (backup.rs:311-315); then `check_cancelled()?` (backup.rs:318)
returns early on cancellation; then the encryption closure
(backup.rs:324-350) reads the temp file, encrypts, frames and writes the
final file; the temp file is unlinked after the closure
(backup.rs:352-353) and the final file unlinked if the closure failed
(backup.rs:355-362); finally the checksum as above. -/
def compress_folder_archive (mode : BackupMode) (env : ArchiveEnv) :
    Except String (Nat × String) × DiskState :=
  if ¬ env.createDestDirOk then (.error "Failed to create dest dir", ⟨false, false⟩)
  else
    match mode with
    | .copy => (.error "not an archive mode", ⟨false, false⟩)
    | .compressed =>
      if ¬ env.createFileOk then (.error "Failed to create backup file", ⟨false, false⟩)
      else
        match env.streamResult with
        | .error e => (.error e, ⟨false, false⟩)
        | .ok size =>
          match env.checksumResult with
          | .error e => (.error e, ⟨false, false⟩)
          | .ok sum => (.ok (size, sum), ⟨true, false⟩)
    | .encrypted =>
      if ¬ env.passwordProvided then
        (.error "Encryption enabled but no password provided", ⟨false, false⟩)
      else if ¬ env.createFileOk then
        (.error "Failed to create temp file", ⟨false, false⟩)
      else
        match env.streamResult with
        | .error e => (.error e, ⟨false, false⟩)
        | .ok _ =>
          if env.cancelAfterCompress then
            (.error "Backup cancelled by user", ⟨false, true⟩)
          else
            let encResult : Except String Nat :=
              if ¬ env.readTempOk then .error "Failed to read compressed data"
              else if ¬ env.encryptOk then .error "Encryption failed"
              else if ¬ env.serializeOk then .error "Failed to serialize metadata"
              else if ¬ env.writeFinalOk then .error "Failed to write encrypted backup"
              else .ok env.encSize
            match encResult with
            | .error e => (.error e, ⟨false, false⟩)
            | .ok size =>
              match env.checksumResult with
              | .error e => (.error e, ⟨false, false⟩)
              | .ok sum => (.ok (size, sum), ⟨true, false⟩)

end Backup

/-!
Section: tar extraction and restore (`backup.rs:840-1155`).  Paths are
modelled structurally: a path is an absolute/relative flag and a list of
components, `Path::join` replaces the base when the joined path is
absolute, and the operating system resolves `.` and `..` components at
file-creation time.
-/

namespace Backup

/-- One component of a filesystem path. -/
inductive PathComp where
  | name (s : String)
  | dot
  | dotdot
deriving Repr, DecidableEq

/-- A filesystem path: whether it is absolute, and its components. -/
structure FsPath where
  absolute : Bool
  comps : List PathComp
deriving Repr, DecidableEq

/-- Rust `Path::join` (as used at backup.rs:1127): joining an absolute
path replaces the base entirely; joining a relative path appends its
components. -/
def joinPath (base p : FsPath) : FsPath :=
  if p.absolute then p else ⟨base.absolute, base.comps ++ p.comps⟩

/-- Resolution of `.` and `..` components as the operating system
performs it when the file is created: names accumulate, `.` is skipped,
and `..` removes the last accumulated name. -/
def resolveComps : List PathComp → List String → List String
  | [], acc => acc
  | .name s :: rest, acc => resolveComps rest (acc ++ [s])
  | .dot :: rest, acc => resolveComps rest acc
  | .dotdot :: rest, acc => resolveComps rest acc.dropLast

/-- The fully resolved component list of a path. -/
def resolvePath (p : FsPath) : List String :=
  resolveComps p.comps []

/-- One tar entry as handed over by the `tar` crate: the stored entry
name and the entry's file contents. -/
structure TarEntry where
  path : FsPath
  content : List Nat
deriving Repr, DecidableEq

/-- The extraction loop of `extract_tar_archive` (backup.rs:1117-1152):
per entry, poll the cancel flag, join the stored entry name onto the
destination (backup.rs:1127), create parents, and unpack the entry at
the joined path.  No validation of the entry name is performed: the file
is written at whatever location the joined path resolves to. -/
def extractLoop : List TarEntry → FsPath → Bool →
    List (List String × List Nat) → Nat →
    Except String (List (List String × List Nat) × Nat)
  | [], _, _, written, count => .ok (written, count)
  | e :: rest, destination, cancel, written, count =>
    if cancel then .error "Restore cancelled by user"
    else
      let target := joinPath destination e.path
      extractLoop rest destination cancel
        (written ++ [(resolvePath target, e.content)]) (count + 1)

/-- `extract_tar_archive` (backup.rs:1100-1155): ensure the destination
directory exists, then run the extraction loop; returns the list of
(resolved path, contents) writes and the entry count. -/
def extract_tar_archive (tar_data : List TarEntry) (destination : FsPath)
    (cancel : Bool) : Except String (List (List String × List Nat) × Nat) :=
  extractLoop tar_data destination cancel [] 0

/-- An entry of the on-disk artifact location: a regular file with its
bytes, or a directory (the Copy-mode artifact shape). -/
inductive FsEntry where
  | file (bytes : List Nat)
  | dir
deriving Repr, DecidableEq

/-- `calculate_checksum` (backup.rs:741-762) at the SHA-256 boundary:
stream the artifact file through the hasher; opening a directory for a
byte read fails with an I/O error. -/
def calculate_checksum (sha256hex : List Nat → List Char) (artifact : FsEntry) :
    Except String (List Char) :=
  match artifact with
  | .file bs => .ok (sha256hex bs)
  | .dir => .error "Failed to open file for checksum: is a directory"

/-- `fs::read` of the artifact (backup.rs:941-942): reading a directory
fails with an I/O error. -/
def fsRead (artifact : FsEntry) : Except String (List Nat) :=
  match artifact with
  | .file bs => .ok bs
  | .dir => .error "Failed to read backup file: is a directory"

/-- `constant_time_eq` (backup.rs:894-903): length check, then a fold of
ors of xors over the zipped byte lists. -/
def constant_time_eq (a b : List Nat) : Bool :=
  if a.length ≠ b.length then false
  else decide (((a.zip b).foldl (fun result xy => result ||| (xy.1 ^^^ xy.2)) 0) = 0)

/-- The bytes of an ASCII string (`str::as_bytes`, as applied to the two
checksum strings at backup.rs:905-908). -/
def strBytes (s : List Char) : List Nat :=
  s.map Char.toNat

/-- The integrity-failure message of backup.rs:914-918, built from the
first 16 characters of each digest. -/
def integrityErrMsg (expected actual : List Char) : String :=
  "Backup file integrity check failed! The file may be corrupted. Expected checksum: "
    ++ (expected.take 16).asString ++ "..., Got: " ++ (actual.take 16).asString ++ "..."

/-- Rust `Path::extension` on a file name (backup.rs:945-949): the part
after the last `.`, absent when there is no `.` or when the only `.` is
the leading one of a hidden file. -/
def fileExtension (name : String) : Option String :=
  match name.splitOn "." with
  | [] => none
  | [_] => none
  | ["", _] => none
  | ps => ps.getLast?

/-- Rust `str::contains` for a substring (backup.rs:1023): `splitOn`
yields more than one piece exactly when the pattern occurs. -/
def containsSubstr (s pat : String) : Bool :=
  decide ((s.splitOn pat).length > 1)

/-- What a call to `restore_backup` did: the final result, which
pipeline stages were entered, and the files written under the
destination by extraction. -/
structure RestoreOutcome where
  result : Except String Nat
  didDecrypt : Bool
  didDecompress : Bool
  didExtract : Bool
  written : List (List String × List Nat)
deriving Repr

/-- Short constructor for an outcome that failed before any pipeline
stage ran. -/
def earlyFail (e : String) : RestoreOutcome :=
  ⟨.error e, false, false, false, []⟩

/-- `restore_backup` (backup.rs:846-1092).  External boundaries appear
as parameters: `sha256hex` (ring SHA-256), `parseMetadataJson`
(serde_json), `decryptFn` (`crypto::decrypt` as called from backup.rs),
`decompress` (zstd `decode_all`), `parseTar` (the tar container reader).
Control flow in source order: cancel poll; optional constant-time digest
verification (backup.rs:878-920); `fs::read` of the artifact
(backup.rs:941); encryption sniffing on the `enc` extension
(backup.rs:945-949) with frame parse and decrypt (backup.rs:974-1009);
compression sniffing on a `.zst` substring of the file name
(backup.rs:1019-1058); tar extraction (backup.rs:1076).  There is no
branch that treats the artifact as a directory to copy. -/
def restore_backup
    (sha256hex : List Nat → List Char)
    (parseMetadataJson : List Nat → Except String Crypto.EncryptionMetadata)
    (decryptFn : List Nat → List Char → Crypto.EncryptionMetadata → Except String (List Nat))
    (decompress : List Nat → Except String (List Nat))
    (parseTar : List Nat → List TarEntry)
    (artifact : FsEntry) (file_name : String) (restore_destination : FsPath)
    (expected_checksum : Option (List Char)) (password : Option (List Char))
    (cancel : Bool) : RestoreOutcome :=
  if cancel then earlyFail "Restore cancelled by user"
  else
    let verifyStep : Except String Unit :=
      match expected_checksum with
      | none => .ok ()
      | some expected =>
        match calculate_checksum sha256hex artifact with
        | .error e => .error e
        | .ok actual =>
          if constant_time_eq (strBytes actual) (strBytes expected) then .ok ()
          else .error (integrityErrMsg expected actual)
    match verifyStep with
    | .error e => earlyFail e
    | .ok _ =>
      match fsRead artifact with
      | .error e => earlyFail e
      | .ok file_data =>
        let is_encrypted := fileExtension file_name == some "enc"
        let decryptStep : Except String (List Nat) × Bool :=
          if is_encrypted then
            match password with
            | none =>
              (.error "Backup is encrypted but no password provided. Please provide the password used during backup.",
                false)
            | some pwd =>
              match parseFrame file_data with
              | .error e => (.error e, false)
              | .ok (metadata_json, encrypted_data) =>
                match parseMetadataJson metadata_json with
                | .error e => (.error ("Failed to parse encryption metadata: " ++ e), false)
                | .ok metadata =>
                  match decryptFn encrypted_data pwd metadata with
                  | .error e =>
                    (.error ("Decryption failed: " ++ e ++ ". Please verify your password is correct."),
                      true)
                  | .ok decrypted => (.ok decrypted, true)
          else (.ok file_data, false)
        match decryptStep with
        | (.error e, dec) => ⟨.error e, dec, false, false, []⟩
        | (.ok compressed_data, dec) =>
          let is_compressed := containsSubstr file_name ".zst"
          let decompressStep : Except String (List Nat) × Bool :=
            if is_compressed then
              match decompress compressed_data with
              | .error e => (.error ("Failed to decompress: " ++ e), true)
              | .ok d => (.ok d, true)
            else (.ok compressed_data, false)
          match decompressStep with
          | (.error e, dc) => ⟨.error e, dec, dc, false, []⟩
          | (.ok tar_data, dc) =>
            match extract_tar_archive (parseTar tar_data) restore_destination cancel with
            | .error e => ⟨.error e, dec, dc, true, []⟩
            | .ok (written, count) => ⟨.ok count, dec, dc, true, written⟩

end Backup

/-!
Section: `launchd.rs` — conversion of the five-field recurrence
expression into launchd `StartCalendarInterval` records
(`src/src-tauri/src/launchd.rs` lines 106-252).  Strings are modelled as
`List Char`; the Rust standard-library string primitives used by the
parser (`split_whitespace`, `split`, `contains`, `str::parse::<i32>`)
are given structurally recursive models with the same semantics.
-/

namespace Launchd

/-- `CalendarInterval` (launchd.rs:245-252): one launchd calendar
trigger; every field holds at most one integer. -/
structure CalendarInterval where
  minute : Option Int
  hour : Option Int
  day : Option Int
  month : Option Int
  weekday : Option Int
deriving Repr, DecidableEq

/-- Helper for `splitWhitespace`: the accumulator holds the current word
reversed. -/
def splitWhitespaceAux : List Char → List Char → List (List Char)
  | [], cur => if cur.isEmpty then [] else [cur.reverse]
  | c :: rest, cur =>
    if c.isWhitespace then
      if cur.isEmpty then splitWhitespaceAux rest []
      else cur.reverse :: splitWhitespaceAux rest []
    else splitWhitespaceAux rest (c :: cur)

/-- Rust `str::split_whitespace` (launchd.rs:111): split on whitespace
runs, yielding no empty pieces. -/
def splitWhitespace (s : List Char) : List (List Char) :=
  splitWhitespaceAux s []

/-- Helper for `splitOnChar`. -/
def splitOnCharAux : List Char → Char → List Char → List (List Char)
  | [], _, cur => [cur.reverse]
  | c :: rest, sep, cur =>
    if c == sep then cur.reverse :: splitOnCharAux rest sep []
    else splitOnCharAux rest sep (c :: cur)

/-- Rust `str::split(sep)` for a character separator (launchd.rs:198,
215): empty pieces are kept. -/
def splitOnChar (s : List Char) (sep : Char) : List (List Char) :=
  splitOnCharAux s sep []

/-- Rust `str::contains(char)` (launchd.rs:195, 213). -/
def containsChar (s : List Char) (c : Char) : Bool :=
  s.any (· == c)

/-- Digit-run accumulator for `parseInt`. -/
def parseDigits : List Char → Nat → Option Nat
  | [], acc => some acc
  | c :: rest, acc =>
    if c.isDigit then parseDigits rest (acc * 10 + (c.toNat - 48))
    else none

/-- Rust `str::parse::<i32>` (launchd.rs:200, 219, 234) restricted to
the in-range values the caller accepts: an optional sign followed by at
least one digit; any other character fails.  (The `i32` overflow failure
of the Rust parser is not modelled; every accepted value is immediately
range-checked against bounds far below `i32::MAX`.) -/
def parseInt (s : List Char) : Option Int :=
  match s with
  | [] => none
  | '+' :: rest =>
    if rest.isEmpty then none else (parseDigits rest 0).map Int.ofNat
  | '-' :: rest =>
    if rest.isEmpty then none else (parseDigits rest 0).map (fun n => -(Int.ofNat n))
  | _ => (parseDigits s 0).map Int.ofNat

/-- Rust `(start..=stop).collect::<Vec<i32>>()` (launchd.rs:230). -/
def intRangeIncl (start stop : Int) : List Int :=
  (List.range (stop - start + 1).toNat).map (fun i => start + Int.ofNat i)

/-- `parse_cron_field` (launchd.rs:189-243): `*` yields the empty list
(expansion is handled by the caller), a comma list parses and
range-checks every element, a hyphenated pair parses as an inclusive
range, and anything else as a single range-checked integer. -/
def parse_cron_field (field : List Char) (min max : Int) : Except String (List Int) :=
  if field = ['*'] then .ok []
  else if containsChar field ',' then
    (splitOnChar field ',').mapM (fun s =>
      match parseInt s with
      | none => .error ("Invalid number: " ++ s.asString)
      | some n =>
        if min ≤ n ∧ n ≤ max then .ok n
        else .error ("Value " ++ toString n ++ " out of range " ++
          toString min ++ "-" ++ toString max))
  else if containsChar field '-' then
    match splitOnChar field '-' with
    | [p0, p1] =>
      match parseInt p0 with
      | none => .error "Invalid range start"
      | some start =>
        match parseInt p1 with
        | none => .error "Invalid range end"
        | some stop =>
          if start < min ∨ stop > max ∨ start > stop then
            .error ("Invalid range " ++ toString start ++ "-" ++ toString stop)
          else .ok (intRangeIncl start stop)
    | _ => .error ("Invalid range: " ++ field.asString)
  else
    match parseInt field with
    | none => .error ("Invalid number: " ++ field.asString)
    | some val =>
      if val < min ∨ val > max then
        .error ("Value " ++ toString val ++ " out of range " ++
          toString min ++ "-" ++ toString max)
      else .ok [val]

/-- `parse_cron_to_calendar_interval` (launchd.rs:110-186): split into
exactly five fields, parse each, require non-`*` minute and hour, and
emit one trigger per (minute, hour) pair of the cross product; the day,
month and weekday slots of every trigger hold `days[0]`, `months[0]`,
`weekdays[0]` — only the first parsed value — or nothing for `*`
(launchd.rs:162-176). -/
def parse_cron_to_calendar_interval (cron_expr : List Char) :
    Except String (List CalendarInterval) :=
  let parts := splitWhitespace cron_expr
  match parts with
  | [minute, hour, day, month, weekday] =>
    match parse_cron_field minute 0 59 with
    | .error e => .error e
    | .ok minutes =>
      match parse_cron_field hour 0 23 with
      | .error e => .error e
      | .ok hours =>
        match (if day = ['*'] then .ok [] else parse_cron_field day 1 31 :
            Except String (List Int)) with
        | .error e => .error e
        | .ok days =>
          match (if month = ['*'] then .ok [] else parse_cron_field month 1 12 :
              Except String (List Int)) with
          | .error e => .error e
          | .ok months =>
            match (if weekday = ['*'] then .ok [] else parse_cron_field weekday 0 6 :
                Except String (List Int)) with
            | .error e => .error e
            | .ok weekdays =>
              if minutes = [] ∨ hours = [] then
                .error "Minute and Hour must be specified"
              else
                let intervals := minutes.flatMap (fun m => hours.map (fun h =>
                  ({ minute := some m
                     hour := some h
                     day := if days.isEmpty then none else some (days.getD 0 0)
                     month := if months.isEmpty then none else some (months.getD 0 0)
                     weekday := if weekdays.isEmpty then none
                       else some (weekdays.getD 0 0) } : CalendarInterval)))
                if intervals = [] then
                  .error "No valid intervals generated from cron expression"
                else .ok intervals
  | _ =>
    .error ("Invalid cron expression: expected 5 fields, got " ++
      toString parts.length)

end Launchd

/-!
Section: proofs about the base64 codec.  The top-level result
`B64.decode_encode` states that decoding inverts encoding on every byte
sequence, which is claim C10's property; the chunk lemmas below mirror the
three-byte groups of the encoder.
-/

namespace B64

lemma sext_eq (n k : Nat) : (n >>> k) &&& 63 = n / 2 ^ k % 64 := by
  rw [Nat.shiftRight_eq_div_pow]
  have h63 : (63 : Nat) = 2 ^ 6 - 1 := by norm_num
  rw [h63, Nat.and_pow_two_sub_one_eq_mod]

lemma findIdx_alphabet {s : Nat} (hs : s < 64) :
    alphabet.findIdx? (· == alphabet.getD s 'A') = some s := by
  have h : ((List.range 64).all fun i =>
      alphabet.findIdx? (· == alphabet.getD i 'A') == some i) = true := by decide
  exact eq_of_beq (List.all_eq_true.mp h s (List.mem_range.mpr hs))

lemma getD_alphabet_ne {s : Nat} (hs : s < 64) : alphabet.getD s 'A' ≠ '=' := by
  have h : ((List.range 64).all fun i => alphabet.getD i 'A' != '=') = true := by decide
  simpa using List.all_eq_true.mp h s (List.mem_range.mpr hs)

lemma pack3 (a b c : Nat) (hb : b < 256) (hc : c < 256) :
    ((a <<< 16) ||| (b <<< 8)) ||| c = 65536 * a + 256 * b + c := by
  have h1 : (a <<< 16) = 2 ^ 16 * a := by rw [Nat.shiftLeft_eq]; ring
  have h2 : (b <<< 8) = b * 2 ^ 8 := Nat.shiftLeft_eq b 8
  have h3 : (2 ^ 16 * a) ||| (b * 2 ^ 8) = 2 ^ 16 * a + b * 2 ^ 8 :=
    (Nat.mul_add_lt_is_or (by omega) a).symm
  have h4 : (2 ^ 16 * a + b * 2 ^ 8) = 2 ^ 8 * (2 ^ 8 * a + b) := by ring
  have h5 : 2 ^ 8 * (2 ^ 8 * a + b) ||| c = 2 ^ 8 * (2 ^ 8 * a + b) + c :=
    (Nat.mul_add_lt_is_or (by omega : c < 2 ^ 8) (2 ^ 8 * a + b)).symm
  rw [h1, h2, h3, h4, h5]; ring

lemma pack2 (s0 s1 : Nat) (h1 : s1 < 64) :
    (0 ||| (s0 <<< 18)) ||| (s1 <<< 12) = 262144 * s0 + 4096 * s1 := by
  have e0 : (0 ||| (s0 <<< 18)) = 2 ^ 18 * s0 := by
    rw [Nat.zero_or, Nat.shiftLeft_eq]; ring
  have e1 : (s1 <<< 12) = s1 * 2 ^ 12 := Nat.shiftLeft_eq s1 12
  have j1 : (2 ^ 18 * s0) ||| (s1 * 2 ^ 12) = 2 ^ 18 * s0 + s1 * 2 ^ 12 :=
    (Nat.mul_add_lt_is_or (by omega) s0).symm
  rw [e0, e1, j1]; ring

lemma pack2b (s0 s1 s2 : Nat) (h1 : s1 < 64) (h2 : s2 < 64) :
    ((0 ||| (s0 <<< 18)) ||| (s1 <<< 12)) ||| (s2 <<< 6)
      = 262144 * s0 + 4096 * s1 + 64 * s2 := by
  rw [pack2 s0 s1 h1]
  have e2 : (s2 <<< 6) = s2 * 2 ^ 6 := Nat.shiftLeft_eq s2 6
  have je : 262144 * s0 + 4096 * s1 = 2 ^ 12 * (2 ^ 6 * s0 + s1) := by ring
  have j2 : (2 ^ 12 * (2 ^ 6 * s0 + s1)) ||| (s2 * 2 ^ 6)
      = 2 ^ 12 * (2 ^ 6 * s0 + s1) + s2 * 2 ^ 6 :=
    (Nat.mul_add_lt_is_or (by omega) _).symm
  rw [e2, je, j2]; ring

lemma pack4 (s0 s1 s2 s3 : Nat) (h1 : s1 < 64) (h2 : s2 < 64) (h3 : s3 < 64) :
    (((0 ||| (s0 <<< 18)) ||| (s1 <<< 12)) ||| (s2 <<< 6)) ||| (s3 <<< 0) =
      262144 * s0 + 4096 * s1 + 64 * s2 + s3 := by
  rw [pack2b s0 s1 s2 h1 h2]
  have e3 : (s3 <<< 0) = s3 := by simp
  have je : 262144 * s0 + 4096 * s1 + 64 * s2
      = 2 ^ 6 * (2 ^ 12 * s0 + 2 ^ 6 * s1 + s2) := by ring
  have j3 : (2 ^ 6 * (2 ^ 12 * s0 + 2 ^ 6 * s1 + s2)) ||| s3
      = 2 ^ 6 * (2 ^ 12 * s0 + 2 ^ 6 * s1 + s2) + s3 :=
    (Nat.mul_add_lt_is_or (by omega : s3 < 2 ^ 6) _).symm
  rw [e3, je, j3]

lemma except_ok_bind {α β : Type} (a : α) (f : α → Except String β) :
    (Except.ok a >>= f : Except String β) = f a := rfl

lemma chunk3_spec (a b c : Nat) (ha : a < 256) (hb : b < 256) (hc : c < 256) :
    ∃ c0 c1 c2 c3,
      encodeChunk [a, b, c] = [c0, c1, c2, c3] ∧
      ((c0 == '=') = false ∧ (c1 == '=') = false ∧
       (c2 == '=') = false ∧ (c3 == '=') = false) ∧
      ∃ m, quantumVal [c0, c1, c2, c3] 0 0 = .ok m ∧
        decodeChunkBytes [c0, c1, c2, c3] m = [a, b, c] := by
  have hN : ((a <<< 16) ||| (b <<< 8)) ||| c = 65536 * a + 256 * b + c :=
    pack3 a b c hb hc
  set N : Nat := 65536 * a + 256 * b + c with hNdef
  have hs0v : (N >>> 18) &&& 63 = N / 262144 % 64 := by rw [sext_eq]; norm_num
  have hs1v : (N >>> 12) &&& 63 = N / 4096 % 64 := by rw [sext_eq]; norm_num
  have hs2v : (N >>> 6) &&& 63 = N / 64 % 64 := by rw [sext_eq]; norm_num
  have hs3v : N &&& 63 = N % 64 := by
    have h63 : (63 : Nat) = 2 ^ 6 - 1 := by norm_num
    rw [h63, Nat.and_pow_two_sub_one_eq_mod]
  have hlt : ∀ k : Nat, k % 64 < 64 := fun k => Nat.mod_lt _ (by norm_num)
  refine ⟨alphabet.getD (N / 262144 % 64) 'A', alphabet.getD (N / 4096 % 64) 'A',
         alphabet.getD (N / 64 % 64) 'A', alphabet.getD (N % 64) 'A', ?_, ?_, ?_⟩
  · show encodeChunk [a, b, c] = _
    simp only [encodeChunk]
    norm_num [hN, hs0v, hs1v, hs2v, hs3v]
  · exact ⟨beq_eq_false_iff_ne.mpr (getD_alphabet_ne (hlt _)),
      beq_eq_false_iff_ne.mpr (getD_alphabet_ne (hlt _)),
      beq_eq_false_iff_ne.mpr (getD_alphabet_ne (hlt _)),
      beq_eq_false_iff_ne.mpr (getD_alphabet_ne (hlt _))⟩
  · have q : quantumVal [alphabet.getD (N / 262144 % 64) 'A', alphabet.getD (N / 4096 % 64) 'A',
        alphabet.getD (N / 64 % 64) 'A', alphabet.getD (N % 64) 'A'] 0 0 =
        .ok ((((0 ||| ((N / 262144 % 64) <<< 18)) ||| ((N / 4096 % 64) <<< 12))
          ||| ((N / 64 % 64) <<< 6)) ||| ((N % 64) <<< 0)) := by
      simp only [quantumVal, if_neg (getD_alphabet_ne (hlt _)),
        findIdx_alphabet (hlt _)]
    refine ⟨_, q, ?_⟩
    rw [pack4 _ _ _ _ (hlt _) (hlt _) (hlt _)]
    simp only [decodeChunkBytes, List.length_cons, List.length_nil]
    norm_num [Nat.shiftRight_eq_div_pow]
    refine ⟨?_, ?_, ?_⟩ <;> omega

lemma chunk2_spec (a b : Nat) (ha : a < 256) (hb : b < 256) :
    ∃ c0 c1 c2,
      encodeChunk [a, b] = [c0, c1, c2, '='] ∧
      ((c0 == '=') = false ∧ (c1 == '=') = false ∧ (c2 == '=') = false) ∧
      ∃ m, quantumVal [c0, c1, c2] 0 0 = .ok m ∧
        decodeChunkBytes [c0, c1, c2] m = [a, b] := by
  have hN : (a <<< 16) ||| (b <<< 8) = 65536 * a + 256 * b := by
    have h1 : (a <<< 16) = 2 ^ 16 * a := by rw [Nat.shiftLeft_eq]; ring
    have h2 : (b <<< 8) = b * 2 ^ 8 := Nat.shiftLeft_eq b 8
    have h3 : (2 ^ 16 * a) ||| (b * 2 ^ 8) = 2 ^ 16 * a + b * 2 ^ 8 :=
      (Nat.mul_add_lt_is_or (by omega) a).symm
    rw [h1, h2, h3]; ring
  have hs0v : ((65536 * a + 256 * b) >>> 18) &&& 63
      = (65536 * a + 256 * b) / 262144 % 64 := by rw [sext_eq]; norm_num
  have hs1v : ((65536 * a + 256 * b) >>> 12) &&& 63
      = (65536 * a + 256 * b) / 4096 % 64 := by rw [sext_eq]; norm_num
  have hs2v : ((65536 * a + 256 * b) >>> 6) &&& 63
      = (65536 * a + 256 * b) / 64 % 64 := by rw [sext_eq]; norm_num
  have hlt : ∀ k : Nat, k % 64 < 64 := fun k => Nat.mod_lt _ (by norm_num)
  refine ⟨alphabet.getD ((65536 * a + 256 * b) / 262144 % 64) 'A',
      alphabet.getD ((65536 * a + 256 * b) / 4096 % 64) 'A',
      alphabet.getD ((65536 * a + 256 * b) / 64 % 64) 'A', ?_, ?_, ?_⟩
  · show encodeChunk [a, b] = _
    simp only [encodeChunk]
    norm_num [hN, hs0v, hs1v, hs2v]
  · exact ⟨beq_eq_false_iff_ne.mpr (getD_alphabet_ne (hlt _)),
      beq_eq_false_iff_ne.mpr (getD_alphabet_ne (hlt _)),
      beq_eq_false_iff_ne.mpr (getD_alphabet_ne (hlt _))⟩
  · have q : quantumVal [alphabet.getD ((65536 * a + 256 * b) / 262144 % 64) 'A',
        alphabet.getD ((65536 * a + 256 * b) / 4096 % 64) 'A',
        alphabet.getD ((65536 * a + 256 * b) / 64 % 64) 'A'] 0 0 =
        .ok (((0 ||| (((65536 * a + 256 * b) / 262144 % 64) <<< 18))
          ||| (((65536 * a + 256 * b) / 4096 % 64) <<< 12))
          ||| (((65536 * a + 256 * b) / 64 % 64) <<< 6)) := by
      simp only [quantumVal, if_neg (getD_alphabet_ne (hlt _)),
        findIdx_alphabet (hlt _)]
    refine ⟨_, q, ?_⟩
    rw [pack2b _ _ _ (hlt _) (hlt _)]
    simp only [decodeChunkBytes, List.length_cons, List.length_nil]
    norm_num [Nat.shiftRight_eq_div_pow]
    constructor <;> omega

lemma chunk1_spec (a : Nat) (ha : a < 256) :
    ∃ c0 c1,
      encodeChunk [a] = [c0, c1, '=', '='] ∧
      ((c0 == '=') = false ∧ (c1 == '=') = false) ∧
      ∃ m, quantumVal [c0, c1] 0 0 = .ok m ∧
        decodeChunkBytes [c0, c1] m = [a] := by
  have hN : (a <<< 16) = 65536 * a := by rw [Nat.shiftLeft_eq]; ring
  have hs0v : ((65536 * a) >>> 18) &&& 63 = 65536 * a / 262144 % 64 := by
    rw [sext_eq]; norm_num
  have hs1v : ((65536 * a) >>> 12) &&& 63 = 65536 * a / 4096 % 64 := by
    rw [sext_eq]; norm_num
  have hlt : ∀ k : Nat, k % 64 < 64 := fun k => Nat.mod_lt _ (by norm_num)
  refine ⟨alphabet.getD (65536 * a / 262144 % 64) 'A',
      alphabet.getD (65536 * a / 4096 % 64) 'A', ?_, ?_, ?_⟩
  · show encodeChunk [a] = _
    simp only [encodeChunk]
    norm_num [hN, hs0v, hs1v]
  · exact ⟨beq_eq_false_iff_ne.mpr (getD_alphabet_ne (hlt _)),
      beq_eq_false_iff_ne.mpr (getD_alphabet_ne (hlt _))⟩
  · have q : quantumVal [alphabet.getD (65536 * a / 262144 % 64) 'A',
        alphabet.getD (65536 * a / 4096 % 64) 'A'] 0 0 =
        .ok ((0 ||| ((65536 * a / 262144 % 64) <<< 18))
          ||| ((65536 * a / 4096 % 64) <<< 12)) := by
      simp only [quantumVal, if_neg (getD_alphabet_ne (hlt _)),
        findIdx_alphabet (hlt _)]
    refine ⟨_, q, ?_⟩
    rw [pack2 _ _ (hlt _)]
    simp only [decodeChunkBytes, List.length_cons, List.length_nil]
    norm_num [Nat.shiftRight_eq_div_pow]
    omega

lemma trimEndEq_pad (l : List Char) : trimEndEq (l ++ ['=']) = trimEndEq l := by
  simp [trimEndEq, List.dropWhile_cons]

lemma trimEndEq_last_ne (l : List Char) (c : Char) (h : (c == '=') = false) :
    trimEndEq (l ++ [c]) = l ++ [c] := by
  simp [trimEndEq, List.dropWhile_cons, h]

lemma trimEndEq_append_ne (l1 l2 : List Char) (h : ∃ x ∈ l2, (x == '=') = false) :
    trimEndEq (l1 ++ l2) = l1 ++ trimEndEq l2 := by
  unfold trimEndEq
  rw [List.reverse_append, List.dropWhile_append]
  have hne : (l2.reverse.dropWhile (· == '=')).isEmpty = false := by
    obtain ⟨x, hx, hxf⟩ := h
    rcases he : (l2.reverse.dropWhile (· == '=')).isEmpty with _ | _
    · rfl
    · exfalso
      rw [List.isEmpty_iff] at he
      rw [List.dropWhile_eq_nil_iff] at he
      have hx2 := he x (List.mem_reverse.mpr hx)
      rw [hx2] at hxf
      simp at hxf
  rw [hne]
  simp

lemma encode_head_ne : ∀ (a : Nat) (l : List Nat),
    ∃ c t, encode (a :: l) = c :: t ∧ (c == '=') = false := by
  have hlt : ∀ n : Nat, (n >>> 18) &&& 63 < 64 :=
    fun n => Nat.lt_succ_of_le Nat.and_le_right
  intro a l
  match l with
  | [] =>
    exact ⟨_, _, rfl, beq_eq_false_iff_ne.mpr (getD_alphabet_ne (hlt _))⟩
  | [b] =>
    exact ⟨_, _, rfl, beq_eq_false_iff_ne.mpr (getD_alphabet_ne (hlt _))⟩
  | b :: c :: rest =>
    exact ⟨_, _, rfl, beq_eq_false_iff_ne.mpr (getD_alphabet_ne (hlt _))⟩

theorem decode_encode : ∀ (l : List Nat), (∀ x ∈ l, x < 256) → decode (encode l) = .ok l
  | [], _ => rfl
  | [a], h => by
    obtain ⟨c0, c1, henc, ⟨h0, h1⟩, m, hq, hbytes⟩ := chunk1_spec a (h a (by simp))
    show decodeChunks (trimEndEq (encode [a])) = .ok [a]
    have he : encode [a] = encodeChunk [a] := rfl
    rw [he, henc]
    have t1 : ([c0, c1, '=', '='] : List Char) = (([c0, c1] ++ ['=']) ++ ['=']) := by simp
    rw [t1, trimEndEq_pad, trimEndEq_pad]
    have t2 : ([c0, c1] : List Char) = [c0] ++ [c1] := by simp
    rw [t2, trimEndEq_last_ne _ _ h1]
    simp only [List.cons_append, List.nil_append]
    have hd : decodeChunks [c0, c1] =
        (do
          let n ← quantumVal [c0, c1] 0 0
          Except.ok (decodeChunkBytes [c0, c1] n)) := rfl
    rw [hd, hq, except_ok_bind, hbytes]
  | [a, b], h => by
    obtain ⟨c0, c1, c2, henc, ⟨h0, h1, h2⟩, m, hq, hbytes⟩ :=
      chunk2_spec a b (h a (by simp)) (h b (by simp))
    show decodeChunks (trimEndEq (encode [a, b])) = .ok [a, b]
    have he : encode [a, b] = encodeChunk [a, b] := rfl
    rw [he, henc]
    have t1 : ([c0, c1, c2, '='] : List Char) = ([c0, c1, c2] ++ ['=']) := by simp
    rw [t1, trimEndEq_pad]
    have t2 : ([c0, c1, c2] : List Char) = [c0, c1] ++ [c2] := by simp
    rw [t2, trimEndEq_last_ne _ _ h2]
    simp only [List.cons_append, List.nil_append]
    have hd : decodeChunks [c0, c1, c2] =
        (do
          let n ← quantumVal [c0, c1, c2] 0 0
          Except.ok (decodeChunkBytes [c0, c1, c2] n)) := rfl
    rw [hd, hq, except_ok_bind, hbytes]
  | a :: b :: c :: rest, h => by
    obtain ⟨c0, c1, c2, c3, henc, ⟨h0, h1, h2, h3⟩, m, hq, hbytes⟩ :=
      chunk3_spec a b c (h a (by simp)) (h b (by simp)) (h c (by simp))
    have ih := decode_encode rest (fun x hx => h x (by simp [hx]))
    show decodeChunks (trimEndEq (encode (a :: b :: c :: rest))) = .ok (a :: b :: c :: rest)
    have he : encode (a :: b :: c :: rest) = encodeChunk [a, b, c] ++ encode rest := rfl
    rw [he, henc]
    cases rest with
    | nil =>
      have t2 : ([c0, c1, c2, c3] : List Char) ++ encode [] = [c0, c1, c2] ++ [c3] := by
        simp [encode]
      rw [t2, trimEndEq_last_ne _ _ h3]
      simp only [List.cons_append, List.nil_append]
      have hd : decodeChunks [c0, c1, c2, c3] =
          (do
            let n ← quantumVal [c0, c1, c2, c3] 0 0
            let bs ← decodeChunks []
            Except.ok (decodeChunkBytes [c0, c1, c2, c3] n ++ bs)) := rfl
      rw [hd, hq, except_ok_bind]
      have hnil : decodeChunks ([] : List Char) = .ok ([] : List Nat) := rfl
      rw [hnil, except_ok_bind, hbytes]
      simp
    | cons r rs =>
      obtain ⟨ce, te, hche, hce⟩ := encode_head_ne r rs
      have hx : ∃ x ∈ encode (r :: rs), (x == '=') = false :=
        ⟨ce, by rw [hche]; simp, hce⟩
      rw [trimEndEq_append_ne _ _ hx]
      have hd : decodeChunks ([c0, c1, c2, c3] ++ trimEndEq (encode (r :: rs))) =
          (do
            let n ← quantumVal [c0, c1, c2, c3] 0 0
            let bs ← decodeChunks (trimEndEq (encode (r :: rs)))
            Except.ok (decodeChunkBytes [c0, c1, c2, c3] n ++ bs)) := rfl
      rw [hd, hq, except_ok_bind]
      have ih2 : decodeChunks (trimEndEq (encode (r :: rs))) = .ok (r :: rs) := ih
      rw [ih2, except_ok_bind, hbytes]
      simp

end B64


/-!
Section: proofs about change detection, extraction and the commit
pipeline.
-/

namespace Backup

lemma lor_eq_zero_iff (a b : Nat) : a ||| b = 0 ↔ a = 0 ∧ b = 0 := by
  constructor
  · intro h
    constructor <;> apply Nat.eq_of_testBit_eq <;> intro i
    · have hb := congrArg (fun x => x.testBit i) h
      simp only [Nat.testBit_lor, Nat.zero_testBit, Bool.or_eq_false_iff] at hb
      simp [hb.1]
    · have hb := congrArg (fun x => x.testBit i) h
      simp only [Nat.testBit_lor, Nat.zero_testBit, Bool.or_eq_false_iff] at hb
      simp [hb.2]
  · rintro ⟨rfl, rfl⟩
    simp

lemma foldl_or_xor (l : List (Nat × Nat)) (r : Nat) :
    (l.foldl (fun result xy => result ||| (xy.1 ^^^ xy.2)) r = 0) ↔
      (r = 0 ∧ ∀ p ∈ l, p.1 = p.2) := by
  induction l generalizing r with
  | nil => simp
  | cons p t ih =>
    rw [List.foldl_cons, ih]
    rw [lor_eq_zero_iff]
    constructor
    · rintro ⟨⟨hr, hx⟩, hall⟩
      refine ⟨hr, ?_⟩
      rintro q hq
      rcases List.mem_cons.mp hq with rfl | hq2
      · exact Nat.xor_eq_zero.mp hx
      · exact hall q hq2
    · rintro ⟨hr, hall⟩
      exact ⟨⟨hr, Nat.xor_eq_zero.mpr (hall p (List.mem_cons_self p t))⟩,
        fun q hq => hall q (List.mem_cons_of_mem p hq)⟩

lemma zip_forall_eq : ∀ (a b : List Nat), a.length = b.length →
    ((∀ p ∈ a.zip b, p.1 = p.2) ↔ a = b)
  | [], [], _ => by simp
  | [], y :: ys, h => by simp at h
  | x :: xs, [], h => by simp at h
  | x :: xs, y :: ys, h => by
    have ih := zip_forall_eq xs ys (by simpa using h)
    simp only [List.zip_cons_cons, List.mem_cons, List.cons.injEq]
    constructor
    · intro hall
      refine ⟨hall (x, y) (Or.inl rfl), ih.mp ?_⟩
      exact fun p hp => hall p (Or.inr hp)
    · rintro ⟨rfl, hxs⟩ p hp
      rcases hp with rfl | hp2
      · rfl
      · exact (ih.mpr hxs) p hp2

/-- `constant_time_eq` agrees with equality: exactly what a constant-time
byte comparison must compute. -/
lemma constant_time_eq_iff (a b : List Nat) : constant_time_eq a b = true ↔ a = b := by
  unfold constant_time_eq
  by_cases hlen : a.length = b.length
  · rw [if_neg (by simpa using hlen)]
    rw [decide_eq_true_iff, foldl_or_xor]
    constructor
    · rintro ⟨_, hall⟩
      exact (zip_forall_eq a b hlen).mp hall
    · intro hab
      exact ⟨rfl, (zip_forall_eq a b hlen).mpr hab⟩
  · rw [if_pos (by simpa using hlen)]
    constructor
    · intro hf
      exact absurd hf (by simp)
    · intro hab
      exact absurd (congrArg List.length hab) hlen

lemma char_toNat_injective : Function.Injective Char.toNat := by
  intro c d h
  have h2 := congrArg Char.ofNat h
  simpa using h2

lemma strBytes_inj {a b : List Char} (h : strBytes a = strBytes b) : a = b :=
  List.map_injective_iff.mpr char_toNat_injective h

lemma scan_changed_foldl (pm : Option BackupManifest) :
    ∀ (all : List SrcFile) (acc : List SrcFile × Nat),
      (all.foldl
        (fun acc f =>
          if shouldBackup pm f then
            if f.metaReadable then (acc.1 ++ [f], acc.2 + f.size) else acc
          else acc) acc).1
        = acc.1 ++ all.filter (fun f => shouldBackup pm f && f.metaReadable)
  | [], acc => by simp
  | f :: rest, acc => by
    rw [List.foldl_cons, List.filter_cons]
    rcases hsb : shouldBackup pm f with _ | _ <;>
      rcases hmr : f.metaReadable with _ | _ <;>
        simp [hsb, hmr, scan_changed_foldl pm rest]

lemma shouldBackup_some (m : BackupManifest) (f : SrcFile) :
    shouldBackup (some m) f =
      match m.files.lookup f.relative_path with
      | none => true
      | some prev =>
        if f.metaReadable then
          decide (f.modified_at ≠ prev.modified_at) || decide (f.size ≠ prev.size)
        else false := rfl

lemma scan_changed_fst (all : List SrcFile) (pm : Option BackupManifest) :
    (scan_changed_files all pm).1
      = all.filter (fun f => shouldBackup pm f && f.metaReadable) := by
  unfold scan_changed_files
  rw [scan_changed_foldl pm all ([], 0)]
  simp

end Backup

/-- Claim C1: the specification asserts that every tar entry whose name
escapes the restore destination aborts the restore with
`UnsafePathError` before the file is written.  The extraction loop of
`extract_tar_archive` (backup.rs:1100-1155) performs no such validation:
for the destination `/tmp/restore-root` and an entry named
`../../escape.txt`, extraction returns success, and the entry is written
at the resolved location `/escape.txt`, which does not lie under the
destination. -/
theorem C1_extract_tar_no_path_validation :
    Backup.extract_tar_archive
        [⟨⟨false, [.dotdot, .dotdot, .name "escape.txt"]⟩, [104, 105]⟩]
        ⟨true, [.name "tmp", .name "restore-root"]⟩ false
      = .ok ([(["escape.txt"], [104, 105])], 1)
    ∧ ¬ List.IsPrefix ["tmp", "restore-root"] ["escape.txt"] := by
  constructor
  · rfl
  · decide

/-- Claim C2, counterexample: the claim (and spec §4.3) includes the files
whose prior manifest entry is a `fallback:` placeholder among those an
incremental run must re-select.  `scan_changed_files` compares only size
and mtime: a file whose prior entry carries `fallback:5:10` but whose
size (5) and mtime (10) are unchanged is not selected. -/
theorem C2_fallback_entry_not_reselected :
    Backup.scan_changed_files [⟨"a.txt", 5, 10, true⟩]
        (some ⟨"cfg", 0, [("a.txt", ⟨"a.txt", 5, 10, Backup.fallbackChecksum 5 10⟩)]⟩)
      = ([], 0)
    ∧ Backup.fallbackChecksum 5 10 = "fallback:5:10" := by
  constructor
  · rfl
  · decide

/-- Claim C2, amended: for an incremental run with a prior manifest (and
every file's metadata readable), the selected set is exactly the current
files with no prior entry under their relative path, or whose size or
mtime differs from the prior entry; the `fallback:` state of the prior
entry's hash is not consulted. -/
theorem C2_incremental_selection (all : List Backup.SrcFile)
    (m : Backup.BackupManifest) (f : Backup.SrcFile)
    (hread : ∀ g ∈ all, g.metaReadable = true) :
    f ∈ (Backup.scan_changed_files all (some m)).1 ↔
      f ∈ all ∧ (m.files.lookup f.relative_path = none ∨
        ∃ prev, m.files.lookup f.relative_path = some prev ∧
          (f.size ≠ prev.size ∨ f.modified_at ≠ prev.modified_at)) := by
  rw [Backup.scan_changed_fst, List.mem_filter]
  constructor
  · rintro ⟨hmem, hp⟩
    refine ⟨hmem, ?_⟩
    rcases hb : m.files.lookup f.relative_path with _ | prev
    · exact Or.inl rfl
    · refine Or.inr ⟨prev, rfl, ?_⟩
      rw [Bool.and_eq_true] at hp
      have hsb := hp.1
      rw [Backup.shouldBackup_some, hb] at hsb
      rw [hread f hmem] at hsb
      simp only [eq_self_iff_true, if_true, Bool.or_eq_true, decide_eq_true_iff] at hsb
      tauto
  · rintro ⟨hmem, hcond⟩
    refine ⟨hmem, ?_⟩
    rw [Bool.and_eq_true]
    refine ⟨?_, hread f hmem⟩
    rw [Backup.shouldBackup_some]
    rcases hcond with hb | ⟨prev, hb, hdiff⟩
    · rw [hb]
    · rw [hb, hread f hmem]
      simp only [eq_self_iff_true, if_true, Bool.or_eq_true, decide_eq_true_iff]
      tauto

/-- Claim C2, amended, witness: a file whose prior entry records a
different size is selected. -/
theorem C2_incremental_selection_witness :
    (⟨"a.txt", 6, 10, true⟩ : Backup.SrcFile) ∈
        (Backup.scan_changed_files [⟨"a.txt", 6, 10, true⟩]
          (some ⟨"cfg", 0, [("a.txt", ⟨"a.txt", 5, 10, "h"⟩)]⟩)).1 ↔
      (⟨"a.txt", 6, 10, true⟩ : Backup.SrcFile) ∈ [(⟨"a.txt", 6, 10, true⟩ : Backup.SrcFile)] ∧
      ((⟨"cfg", 0, [("a.txt", ⟨"a.txt", 5, 10, "h"⟩)]⟩ : Backup.BackupManifest).files.lookup "a.txt" = none ∨
        ∃ prev, (⟨"cfg", 0, [("a.txt", ⟨"a.txt", 5, 10, "h"⟩)]⟩ : Backup.BackupManifest).files.lookup "a.txt" = some prev ∧
          ((6 : Nat) ≠ prev.size ∨ (10 : Int) ≠ prev.modified_at)) :=
  C2_incremental_selection [⟨"a.txt", 6, 10, true⟩]
    ⟨"cfg", 0, [("a.txt", ⟨"a.txt", 5, 10, "h"⟩)]⟩ ⟨"a.txt", 6, 10, true⟩
    (by intro g hg; simp at hg; rw [hg])

/-- Claim C3: the specification asserts that on every failure path of an
archive-mode backup no `.tmp.zst` sidecar remains.  In Encrypted mode,
when the cancel flag is observed at the `check_cancelled()?` between
streaming compression and encryption (backup.rs:318), `compress_folder`
returns the cancellation error without deleting the just-written temp
file: the sidecar remains on disk. -/
theorem C3_cancel_after_compress_leaks_temp :
    Backup.compress_folder_archive .encrypted
        { createDestDirOk := true, passwordProvided := true, createFileOk := true,
          streamResult := .ok 100, cancelAfterCompress := true, readTempOk := true,
          encryptOk := true, serializeOk := true, writeFinalOk := true,
          encSize := 120, checksumResult := .ok "c" }
      = (.error "Backup cancelled by user", ⟨false, true⟩) := by
  rfl


/-!
Section: proofs about the cipher wrapper, the encrypted frame, and the
restore pipeline.
-/

namespace Crypto

/-- Unfolding of `decrypt` on metadata whose salt and nonce fields carry
well-formed base64 of byte sequences: the transport decodes losslessly
and the result is decided by `open_in_place`. -/
lemma decrypt_on_valid_metadata (box : SealedBox) (pwd : List Char)
    (salt nonce : List Nat) (ver mc it par : Nat)
    (hsalt : ∀ x ∈ salt, x < 256) (hnonce : ∀ x ∈ nonce, x < 256) :
    decrypt box pwd ⟨B64.encode salt, B64.encode nonce, ver, mc, it, par⟩ =
      match open_in_place (derive_key pwd salt) nonce box with
      | some pt => .ok pt
      | none => .error authFailMsg := by
  unfold decrypt
  simp only [B64.decode_encode salt hsalt, B64.decode_encode nonce hnonce]

end Crypto

/-- Claim C4: with the KDF and AEAD modelled symbolically at the library
boundary, opening the sealed ciphertext with the metadata returned by
`encrypt` yields the original plaintext exactly when the same passphrase
is supplied; a different passphrase fails with the authentication error;
and every failing open of a box against this metadata produces the one
`authFailMsg` value, so the error does not distinguish a wrong passphrase
from tampered ciphertext. -/
theorem C4_seal_open_iff_passphrase
    (pt : List Nat) (pwd pwd2 : List Char) (salt nonce : List Nat)
    (ct : Crypto.SealedBox) (md : Crypto.EncryptionMetadata)
    (hsalt : ∀ x ∈ salt, x < 256) (hnonce : ∀ x ∈ nonce, x < 256)
    (henc : Crypto.encrypt pt pwd salt nonce = .ok (ct, md)) :
    Crypto.decrypt ct pwd md = .ok pt ∧
    (pwd2 ≠ pwd → Crypto.decrypt ct pwd2 md = .error Crypto.authFailMsg) ∧
    (∀ (box2 : Crypto.SealedBox) (pwd3 : List Char) (e : String),
      Crypto.decrypt box2 pwd3 md = .error e → e = Crypto.authFailMsg) := by
  have hpair := Except.ok.inj henc
  have hct : ct = ⟨⟨pwd, salt⟩, nonce, pt⟩ := (congrArg Prod.fst hpair).symm
  have hmd : md = ⟨B64.encode salt, B64.encode nonce, 0x13, 65536, 3, 4⟩ :=
    (congrArg Prod.snd hpair).symm
  subst hct
  subst hmd
  refine ⟨?_, ?_, ?_⟩
  · rw [Crypto.decrypt_on_valid_metadata _ _ _ _ _ _ _ _ hsalt hnonce]
    unfold Crypto.open_in_place
    rw [if_pos ⟨rfl, rfl⟩]
  · intro hne
    rw [Crypto.decrypt_on_valid_metadata _ _ _ _ _ _ _ _ hsalt hnonce]
    unfold Crypto.open_in_place
    rw [if_neg]
    intro hcon
    have hkey := hcon.1
    have : pwd = pwd2 := congrArg Crypto.DerivedKey.password hkey
    exact hne this.symm
  · intro box2 pwd3 e hdec
    rw [Crypto.decrypt_on_valid_metadata _ _ _ _ _ _ _ _ hsalt hnonce] at hdec
    rcases hop : Crypto.open_in_place (Crypto.derive_key pwd3 salt) nonce box2 with _ | p
    · rw [hop] at hdec
      exact (Except.error.inj hdec).symm
    · rw [hop] at hdec
      exact absurd hdec (by simp)

/-- Claim C4, witness: decrypting with the sealing passphrase recovers a
concrete plaintext. -/
theorem C4_seal_open_witness :
    Crypto.decrypt ⟨⟨['p'], [0, 1]⟩, [2, 3], [10, 20, 30]⟩ ['p']
        ⟨B64.encode [0, 1], B64.encode [2, 3], 0x13, 65536, 3, 4⟩
      = .ok [10, 20, 30] :=
  (C4_seal_open_iff_passphrase [10, 20, 30] ['p'] ['q'] [0, 1] [2, 3]
    ⟨⟨['p'], [0, 1]⟩, [2, 3], [10, 20, 30]⟩
    ⟨B64.encode [0, 1], B64.encode [2, 3], 0x13, 65536, 3, 4⟩
    (by decide) (by decide) rfl).1

namespace Backup

/-- `parseFrame` on a byte list with at least four elements: the length
word is read from the first four bytes and the tail split accordingly. -/
lemma parseFrame_cons (b0 b1 b2 b3 : Nat) (t : List Nat) :
    parseFrame (b0 :: b1 :: b2 :: b3 :: t) =
      (if (b0 :: b1 :: b2 :: b3 :: t).length < 4 + u32FromLeBytes b0 b1 b2 b3 then
        .error "Invalid encrypted file: metadata truncated"
      else .ok (t.take (u32FromLeBytes b0 b1 b2 b3),
        (b0 :: b1 :: b2 :: b3 :: t).drop (4 + u32FromLeBytes b0 b1 b2 b3))) := by
  unfold parseFrame
  rw [if_neg (by simp)]
  rfl

end Backup

/-- Claim C5: the encrypted artifact written by a successful
Encrypted-mode backup is the 4-byte little-endian `u32` length `L` of the
metadata JSON, the `L` JSON bytes, then the AEAD ciphertext with its tag;
parsing inverts building; and on restore a file shorter than 4 bytes, or
shorter than `4 + L`, is rejected with the corrupt-frame error. -/
theorem C5_frame_layout (m e d : List Nat) (hm : m.length < 2 ^ 32) :
    Backup.buildFrame m e = Backup.u32ToLeBytes m.length ++ m ++ e ∧
    Backup.parseFrame (Backup.buildFrame m e) = .ok (m, e) ∧
    (d.length < 4 → Backup.parseFrame d = .error "Invalid encrypted file: too short") ∧
    (4 ≤ d.length →
      d.length < 4 + Backup.u32FromLeBytes (d.getD 0 0) (d.getD 1 0) (d.getD 2 0) (d.getD 3 0) →
      Backup.parseFrame d = .error "Invalid encrypted file: metadata truncated") := by
  refine ⟨rfl, ?_, ?_, ?_⟩
  · have hcons : Backup.buildFrame m e
        = (m.length % 2 ^ 32 % 256) :: (m.length % 2 ^ 32 / 256 % 256) ::
          (m.length % 2 ^ 32 / 65536 % 256) :: (m.length % 2 ^ 32 / 16777216 % 256) ::
          (m ++ e) := by
      simp [Backup.buildFrame, Backup.u32ToLeBytes]
    rw [hcons, Backup.parseFrame_cons]
    have hL : Backup.u32FromLeBytes (m.length % 2 ^ 32 % 256) (m.length % 2 ^ 32 / 256 % 256)
        (m.length % 2 ^ 32 / 65536 % 256) (m.length % 2 ^ 32 / 16777216 % 256) = m.length := by
      unfold Backup.u32FromLeBytes
      omega
    rw [hL, if_neg (by simp; omega)]
    rw [List.take_left]
    have hd : ((m.length % 2 ^ 32 % 256) :: (m.length % 2 ^ 32 / 256 % 256) ::
        (m.length % 2 ^ 32 / 65536 % 256) :: (m.length % 2 ^ 32 / 16777216 % 256) ::
        (m ++ e)).drop (4 + m.length) = e := by
      rw [← List.drop_drop]
      exact List.drop_left m e
    rw [hd]
  · intro h4
    simp only [Backup.parseFrame]
    rw [if_pos h4]
  · intro h4 hlt
    simp only [Backup.parseFrame]
    rw [if_neg (by omega), if_pos hlt]

/-- Claim C5, witness: a concrete three-byte metadata blob with a
two-byte ciphertext builds and parses back, and concrete short inputs
are rejected. -/
theorem C5_frame_layout_witness :
    Backup.parseFrame (Backup.buildFrame [1, 2, 3] [9, 9]) = .ok ([1, 2, 3], [9, 9]) :=
  (C5_frame_layout [1, 2, 3] [9, 9] [] (by decide)).2.1

/-- Claim C6: when an expected digest is supplied and differs from the
digest of the artifact bytes, `restore_backup` stops with the integrity
error: no decryption, decompression or extraction work is performed and
nothing is written to the destination. -/
theorem C6_integrity_mismatch_aborts
    (sha256hex : List Nat → List Char)
    (parseMetadataJson : List Nat → Except String Crypto.EncryptionMetadata)
    (decryptFn : List Nat → List Char → Crypto.EncryptionMetadata → Except String (List Nat))
    (decompress : List Nat → Except String (List Nat))
    (parseTar : List Nat → List Backup.TarEntry)
    (bytes : List Nat) (file_name : String) (dest : Backup.FsPath)
    (expected : List Char) (password : Option (List Char))
    (hne : expected ≠ sha256hex bytes) :
    Backup.restore_backup sha256hex parseMetadataJson decryptFn decompress parseTar
        (.file bytes) file_name dest (some expected) password false
      = ⟨.error (Backup.integrityErrMsg expected (sha256hex bytes)),
          false, false, false, []⟩ := by
  have hcte : Backup.constant_time_eq (Backup.strBytes (sha256hex bytes))
      (Backup.strBytes expected) = false := by
    rcases h : Backup.constant_time_eq (Backup.strBytes (sha256hex bytes))
        (Backup.strBytes expected) with _ | _
    · rfl
    · exfalso
      have heq := Backup.strBytes_inj ((Backup.constant_time_eq_iff _ _).mp h)
      exact hne heq.symm
  unfold Backup.restore_backup
  simp only [Backup.calculate_checksum, hcte]
  rfl

/-- Claim C6, witness: a deliberately different expected digest aborts a
concrete restore with the integrity error and no work done. -/
theorem C6_integrity_mismatch_witness :
    Backup.restore_backup (fun _ => ['a']) (fun _ => .error "")
        (fun _ _ _ => .error "") (fun _ => .error "") (fun _ => [])
        (.file [1, 2, 3]) "Bkp_InLocker_full_x.tar.zst" ⟨true, [.name "dest"]⟩
        (some ['b']) none false
      = ⟨.error (Backup.integrityErrMsg ['b'] ['a']), false, false, false, []⟩ :=
  C6_integrity_mismatch_aborts (fun _ => ['a']) (fun _ => .error "")
    (fun _ _ _ => .error "") (fun _ => .error "") (fun _ => [])
    [1, 2, 3] "Bkp_InLocker_full_x.tar.zst" ⟨true, [.name "dest"]⟩
    ['b'] none (by decide)

/-- Claim C7, counterexample: the claim (and spec §4.9.5) states that a
Copy-mode artifact — a directory whose name ends in neither `.enc` nor
contains `.zst` — is recursively copied into the destination and the
restore returns successfully.  `restore_backup` has no such branch: it
reads the artifact with `fs::read`, which fails on a directory, and the
restore returns an error with nothing written. -/
theorem C7_copy_restore_fails :
    Backup.restore_backup (fun _ => []) (fun _ => .error "")
        (fun _ _ _ => .error "") (fun _ => .error "") (fun _ => [])
        .dir "Bkp_InLocker_full_20240101_000000" ⟨true, [.name "dest"]⟩
        none none false
      = Backup.earlyFail "Failed to read backup file: is a directory" := by
  rfl

/-- Claim C7, amended: for every Copy-mode artifact (a directory),
`restore_backup` fails at the artifact-read step with an I/O error; no
recursive copy is attempted, no pipeline stage runs, and nothing is
written to the destination. -/
theorem C7_copy_restore_errors
    (sha256hex : List Nat → List Char)
    (parseMetadataJson : List Nat → Except String Crypto.EncryptionMetadata)
    (decryptFn : List Nat → List Char → Crypto.EncryptionMetadata → Except String (List Nat))
    (decompress : List Nat → Except String (List Nat))
    (parseTar : List Nat → List Backup.TarEntry)
    (file_name : String) (dest : Backup.FsPath) (password : Option (List Char)) :
    Backup.restore_backup sha256hex parseMetadataJson decryptFn decompress parseTar
        .dir file_name dest none password false
      = Backup.earlyFail "Failed to read backup file: is a directory" := by
  rfl


/-!
Section: proofs about artifact naming, the recurrence-expression
conversion, and the base64 round trip.
-/

/-- Claim C8, counterexample: the claim (and spec §3, §6) names artifacts
`Bkp_<actual_type>_<timestamp>` with the per-mode suffix.  The source
brands every name with an `InLocker_` infix (backup.rs:128-142): for a
full Compressed backup at a concrete timestamp the generated name is
`Bkp_InLocker_full_20240102_030405.tar.zst`, which differs from the
spec's `Bkp_full_20240102_030405.tar.zst`. -/
theorem C8_name_differs_from_spec :
    Backup.backup_filename .compressed (Backup.actual_backup_type 2 2) "20240102_030405"
      = "Bkp_InLocker_full_20240102_030405.tar.zst"
    ∧ Backup.backup_filename .compressed (Backup.actual_backup_type 2 2) "20240102_030405"
      ≠ Backup.spec_backup_filename .compressed (Backup.actual_backup_type 2 2) "20240102_030405" := by
  constructor
  · rfl
  · decide

/-- Claim C8, amended: every artifact is named
`Bkp_InLocker_<actual_type>_<timestamp>` with suffix `.tar.zst` in
Compressed mode, `.tar.zst.enc` in Encrypted mode and no suffix in Copy
mode, where `<actual_type>` is `full` exactly when the number of selected
files equals the number of files in the full walk, and `incr` otherwise —
computed from the observed counts, not the requested type. -/
theorem C8_artifact_naming (fc tc : Nat) (ts : String) :
    Backup.backup_filename .copy (Backup.actual_backup_type fc tc) ts
      = "Bkp_InLocker_" ++ Backup.actual_backup_type fc tc ++ "_" ++ ts ∧
    Backup.backup_filename .compressed (Backup.actual_backup_type fc tc) ts
      = "Bkp_InLocker_" ++ Backup.actual_backup_type fc tc ++ "_" ++ ts ++ ".tar.zst" ∧
    Backup.backup_filename .encrypted (Backup.actual_backup_type fc tc) ts
      = "Bkp_InLocker_" ++ Backup.actual_backup_type fc tc ++ "_" ++ ts ++ ".tar.zst.enc" ∧
    (Backup.actual_backup_type fc tc = "full" ↔ fc = tc) ∧
    (Backup.actual_backup_type fc tc = "full" ∨ Backup.actual_backup_type fc tc = "incr") := by
  refine ⟨rfl, rfl, rfl, ?_, ?_⟩
  · unfold Backup.actual_backup_type
    by_cases h : fc = tc
    · simp [h]
    · rw [if_neg h]
      constructor
      · intro hf
        exact absurd hf (by decide)
      · intro hf
        exact absurd hf h
  · unfold Backup.actual_backup_type
    by_cases h : fc = tc
    · rw [if_pos h]
      exact Or.inl rfl
    · rw [if_neg h]
      exact Or.inr rfl

namespace Launchd

lemma except_error_bind {α β : Type} (e : String) (f : α → Except String β) :
    (Except.error e >>= f : Except String β) = .error e := rfl

lemma mapM_except_forall {α : Type} (g : α → Except String Int) (P : Int → Prop)
    (hg : ∀ s v, g s = .ok v → P v) :
    ∀ (l : List α) (vs : List Int), l.mapM g = .ok vs → ∀ v ∈ vs, P v := by
  intro l
  induction l with
  | nil =>
    intro vs h v hv
    rw [List.mapM_nil] at h
    have : ([] : List Int) = vs := Except.ok.inj h
    subst this
    exact absurd hv (by simp)
  | cons a t ih =>
    intro vs h v hv
    rw [List.mapM_cons] at h
    cases hga : g a with
    | error e =>
      rw [hga, except_error_bind] at h
      exact absurd h (by simp)
    | ok y =>
      rw [hga, B64.except_ok_bind] at h
      cases hmt : t.mapM g with
      | error e =>
        rw [hmt, except_error_bind] at h
        exact absurd h (by simp)
      | ok ys =>
        rw [hmt, B64.except_ok_bind] at h
        have hcons : y :: ys = vs := Except.ok.inj h
        subst hcons
        rcases List.mem_cons.mp hv with rfl | hv2
        · exact hg a v hga
        · exact ih ys hmt v hv2

/-- Every value accepted by `parse_cron_field` lies in the field's
declared range: out-of-range values are rejected. -/
lemma parse_cron_field_range (field : List Char) (mn mx : Int) (vs : List Int)
    (h : parse_cron_field field mn mx = .ok vs) : ∀ v ∈ vs, mn ≤ v ∧ v ≤ mx := by
  unfold parse_cron_field at h
  by_cases hstar : field = ['*']
  · rw [if_pos hstar] at h
    have : ([] : List Int) = vs := Except.ok.inj h
    subst this
    simp
  · rw [if_neg hstar] at h
    by_cases hcomma : containsChar field ',' = true
    · rw [if_pos hcomma] at h
      refine mapM_except_forall _ _ ?_ _ vs h
      intro s v hsv
      cases hpi : parseInt s with
      | none =>
        simp only [hpi] at hsv
        exact absurd hsv (by simp)
      | some n =>
        simp only [hpi] at hsv
        by_cases hb : mn ≤ n ∧ n ≤ mx
        · rw [if_pos hb] at hsv
          have hnv : n = v := Except.ok.inj hsv
          subst hnv
          exact hb
        · rw [if_neg hb] at hsv
          exact absurd hsv (by simp)
    · rw [if_neg hcomma] at h
      by_cases hdash : containsChar field '-' = true
      · rw [if_pos hdash] at h
        rcases hsp : splitOnChar field '-' with _ | ⟨p0, _ | ⟨p1, _ | ⟨q, t⟩⟩⟩ <;>
          simp only [hsp] at h
        · exact absurd h (by simp)
        · exact absurd h (by simp)
        · cases hp0 : parseInt p0 with
          | none =>
            simp only [hp0] at h
            exact absurd h (by simp)
          | some start =>
            simp only [hp0] at h
            cases hp1 : parseInt p1 with
            | none =>
              simp only [hp1] at h
              exact absurd h (by simp)
            | some stop =>
              simp only [hp1] at h
              by_cases hc : start < mn ∨ stop > mx ∨ start > stop
              · rw [if_pos hc] at h
                exact absurd h (by simp)
              · rw [if_neg hc] at h
                push_neg at hc
                have hr : intRangeIncl start stop = vs := Except.ok.inj h
                subst hr
                intro v hv
                unfold intRangeIncl at hv
                rw [List.mem_map] at hv
                obtain ⟨i, hi, rfl⟩ := hv
                rw [List.mem_range] at hi
                obtain ⟨h1, h2, h3⟩ := hc
                simp only [Int.ofNat_eq_coe]
                constructor <;> omega
        · exact absurd h (by simp)
      · rw [if_neg hdash] at h
        cases hpf : parseInt field with
        | none =>
          simp only [hpf] at h
          exact absurd h (by simp)
        | some val =>
          simp only [hpf] at h
          by_cases hc : val < mn ∨ val > mx
          · rw [if_pos hc] at h
            exact absurd h (by simp)
          · rw [if_neg hc] at h
            push_neg at hc
            have hr : [val] = vs := Except.ok.inj h
            subst hr
            intro v hv
            rcases List.mem_singleton.mp hv with rfl
            exact ⟨by omega, by omega⟩

/-- An expression that does not split into exactly five fields is
rejected with the field-count error. -/
lemma parse_cron_wrong_field_count (expr : List Char)
    (h : (splitWhitespace expr).length ≠ 5) :
    parse_cron_to_calendar_interval expr =
      .error ("Invalid cron expression: expected 5 fields, got " ++
        toString (splitWhitespace expr).length) := by
  unfold parse_cron_to_calendar_interval
  rcases hp : splitWhitespace expr with _ | ⟨a, _ | ⟨b, _ | ⟨c, _ | ⟨d, _ | ⟨e, _ | ⟨f, t⟩⟩⟩⟩⟩⟩
  · rfl
  · rfl
  · rfl
  · rfl
  · rfl
  · exfalso
    rw [hp] at h
    simp at h
  · rfl

lemma head_if_eq (l : List Int) :
    (if l.isEmpty then none else some (l.getD 0 0)) = l.head? := by
  cases l <;> rfl

lemma cross_ne_nil (f : Int → Int → CalendarInterval) {m h : List Int}
    (hm : m ≠ []) (hh : h ≠ []) :
    m.flatMap (fun a => h.map (f a)) ≠ [] := by
  obtain ⟨a, m2, rfl⟩ := List.exists_cons_of_ne_nil hm
  obtain ⟨b, h2, rfl⟩ := List.exists_cons_of_ne_nil hh
  simp

/-- Structure of a successful conversion: one trigger per (minute, hour)
pair of the cross product, with the day, month and weekday slots holding
only the head of the respective parsed lists. -/
lemma parse_cron_structure (expr : List Char) (mi ho da mo wd : List Char)
    (minutes hours days months weekdays : List Int)
    (hp : splitWhitespace expr = [mi, ho, da, mo, wd])
    (hmi : parse_cron_field mi 0 59 = .ok minutes)
    (hho : parse_cron_field ho 0 23 = .ok hours)
    (hda : (if da = ['*'] then Except.ok [] else parse_cron_field da 1 31) = .ok days)
    (hmo : (if mo = ['*'] then Except.ok [] else parse_cron_field mo 1 12) = .ok months)
    (hwd : (if wd = ['*'] then Except.ok [] else parse_cron_field wd 0 6) = .ok weekdays)
    (hm : minutes ≠ []) (hh : hours ≠ []) :
    parse_cron_to_calendar_interval expr =
      .ok (minutes.flatMap (fun m => hours.map (fun h =>
        ⟨some m, some h, days.head?, months.head?, weekdays.head?⟩))) := by
  unfold parse_cron_to_calendar_interval
  simp only [hp, hmi, hho, hda, hmo, hwd]
  rw [if_neg (by simp [hm, hh])]
  rw [head_if_eq days, head_if_eq months, head_if_eq weekdays]
  rw [if_neg (cross_ne_nil _ hm hh)]

end Launchd

/-- Claim C9, counterexample: the claim states that every listed value of
every field is represented in the generated triggers and that `*` is
accepted in every field.  The conversion rejects `*` in the minute and
hour fields, and for `0 2 1,15 * *` emits a single trigger whose day slot
holds only `1`: the listed day-of-month `15` appears in no trigger. -/
theorem C9_conversion_drops_day_values :
    Launchd.parse_cron_to_calendar_interval "* * * * *".toList
      = .error "Minute and Hour must be specified"
    ∧ Launchd.parse_cron_to_calendar_interval "0 2 1,15 * *".toList
      = .ok [⟨some 0, some 2, some 1, none, none⟩]
    ∧ ∀ iv ∈ ([⟨some 0, some 2, some 1, none, none⟩] :
        List Launchd.CalendarInterval), iv.day ≠ some 15 := by
  refine ⟨rfl, rfl, ?_⟩
  decide

/-- Claim C9, amended: the conversion emits one calendar trigger per
(minute, hour) pair of the cross product, but each trigger carries only
the first listed day-of-month, month and weekday value (`*` leaves the
slot empty); `*` in the minute or hour field is rejected; expressions
with a wrong field count are rejected; and every accepted field value
lies in the field's declared range, out-of-range values being rejected. -/
theorem C9_cron_conversion :
    (∀ expr : List Char, (Launchd.splitWhitespace expr).length ≠ 5 →
      Launchd.parse_cron_to_calendar_interval expr =
        .error ("Invalid cron expression: expected 5 fields, got " ++
          toString (Launchd.splitWhitespace expr).length)) ∧
    (∀ (field : List Char) (mn mx : Int) (vs : List Int),
      Launchd.parse_cron_field field mn mx = .ok vs →
      ∀ v ∈ vs, mn ≤ v ∧ v ≤ mx) ∧
    (∀ (expr mi ho da mo wd : List Char)
      (minutes hours days months weekdays : List Int),
      Launchd.splitWhitespace expr = [mi, ho, da, mo, wd] →
      Launchd.parse_cron_field mi 0 59 = .ok minutes →
      Launchd.parse_cron_field ho 0 23 = .ok hours →
      (if da = ['*'] then Except.ok [] else Launchd.parse_cron_field da 1 31) = .ok days →
      (if mo = ['*'] then Except.ok [] else Launchd.parse_cron_field mo 1 12) = .ok months →
      (if wd = ['*'] then Except.ok [] else Launchd.parse_cron_field wd 0 6) = .ok weekdays →
      minutes ≠ [] → hours ≠ [] →
      Launchd.parse_cron_to_calendar_interval expr =
        .ok (minutes.flatMap (fun m => hours.map (fun h =>
          ⟨some m, some h, days.head?, months.head?, weekdays.head?⟩)))) :=
  ⟨Launchd.parse_cron_wrong_field_count,
   Launchd.parse_cron_field_range,
   Launchd.parse_cron_structure⟩

/-- Claim C9, amended, witness: a four-field expression is rejected, an
accepted comma list stays in range, and `0,30 2,14 1,15 * *` yields the
four (minute, hour) cross-product triggers, each carrying only day 1. -/
theorem C9_cron_conversion_witness :
    Launchd.parse_cron_to_calendar_interval "0 2 * *".toList
      = .error "Invalid cron expression: expected 5 fields, got 4"
    ∧ ((1 : Int) ≤ 15 ∧ (15 : Int) ≤ 31)
    ∧ Launchd.parse_cron_to_calendar_interval "0,30 2,14 1,15 * *".toList
      = .ok ([0, 30].flatMap (fun m => [2, 14].map (fun h =>
          ⟨some m, some h, ([1, 15] : List Int).head?, ([] : List Int).head?,
            ([] : List Int).head?⟩))) :=
  ⟨C9_cron_conversion.1 "0 2 * *".toList (by decide),
   C9_cron_conversion.2.1 "1,15".toList 1 31 [1, 15] rfl 15 (by decide),
   C9_cron_conversion.2.2 "0,30 2,14 1,15 * *".toList
     "0,30".toList "2,14".toList "1,15".toList "*".toList "*".toList
     [0, 30] [2, 14] [1, 15] [] [] rfl rfl rfl rfl rfl rfl
     (by decide) (by decide)⟩

/-- Claim C10: the crypto module's hand-rolled base64 decoder inverts its
encoder on every byte sequence, so the salts and nonces stored in
encryption metadata survive the base64 transport unchanged. -/
theorem C10_base64_roundtrip (l : List Nat) (h : ∀ x ∈ l, x < 256) :
    B64.decode (B64.encode l) = .ok l :=
  B64.decode_encode l h

/-- Claim C10, witness: a concrete five-byte sequence (covering a
two-byte final chunk) decodes back to itself. -/
theorem C10_base64_roundtrip_witness :
    B64.decode (B64.encode [77, 97, 110, 255, 0]) = .ok [77, 97, 110, 255, 0] :=
  C10_base64_roundtrip [77, 97, 110, 255, 0] (by decide)

end InLocker
